import Mathlib

/-!
Shallow embedding of the raycasting engine (`src/raycasting.js`) and proofs
of the specification claims about it.

The JavaScript engine computes with IEEE doubles; the embedding models that
arithmetic with the real numbers `ℝ`, which is the idealised semantics the
specification reasons in.  Loops become structural recursion (the unbounded
`while` of the wall finder takes an explicit fuel argument), the shared
`data` object becomes explicit parameters, and the RGBA byte quadruple at
buffer offset `4*k` is modelled as a `Color` stored at key `k`.
-/

/-! ### Configuration constants (the `data` object, lines 16-131) -/

/-- Source `data.screen.width` (line 18). -/
def screenWidth : ℕ := 640

/-- Source `data.screen.height` (line 19). -/
def screenHeight : ℕ := 480

/-- Source `data.screen.scale` (line 22). -/
def screenScale : ℕ := 4

/-- Source `data.projection.width = data.screen.width / data.screen.scale` (line 127). -/
def projectionWidth : ℕ := screenWidth / screenScale

/-- Source `data.projection.height = data.screen.height / data.screen.scale` (line 128). -/
def projectionHeight : ℕ := screenHeight / screenScale

/-- Source `data.projection.halfHeight = data.projection.height / 2` (line 130). -/
noncomputable def projectionHalfHeight : ℝ := (projectionHeight : ℝ) / 2

/-- Source `data.player.fov` (line 56). -/
def fov : ℝ := 60

/-- Source `data.player.halfFov = data.player.fov / 2` (line 126). -/
noncomputable def halfFov : ℝ := fov / 2

/-- Source `data.rayCasting.precision` (line 53). -/
def precision : ℕ := 64

/-- Source `data.rayCasting.incrementAngle = data.player.fov / data.projection.width` (line 131). -/
noncomputable def incrementAngle : ℝ := fov / (projectionWidth : ℝ)

/-- Source `data.player.speed.movement` (line 62). -/
noncomputable def movementSpeed : ℝ := 0.1

/-- Source `data.player.speed.rotation` (line 63). -/
noncomputable def rotationSpeed : ℝ := 4.5

/-- Source `data.player.radius` (line 65). -/
noncomputable def playerRadius : ℝ := 0.3

/-- Source `data.map` (lines 85-96). -/
def dataMap : List (List ℕ) :=
  [[2, 2, 2, 2, 2, 2, 2, 2, 2, 2],
   [2, 0, 0, 0, 0, 0, 0, 0, 0, 2],
   [2, 0, 0, 0, 0, 0, 0, 0, 0, 2],
   [2, 0, 0, 2, 2, 0, 2, 0, 0, 2],
   [2, 0, 0, 2, 0, 0, 2, 0, 0, 2],
   [2, 0, 0, 2, 0, 0, 2, 0, 0, 2],
   [2, 0, 0, 2, 0, 2, 2, 0, 0, 2],
   [2, 0, 0, 0, 0, 0, 0, 0, 0, 2],
   [2, 0, 0, 0, 0, 0, 0, 0, 0, 2],
   [2, 2, 2, 2, 2, 2, 2, 2, 2, 2]]

/-- Source `degreeToRadians` (lines 159-162): `degree * Math.PI / 180`. -/
noncomputable def degreeToRadians (degree : ℝ) : ℝ := degree * Real.pi / 180

/-! ### JavaScript numeric primitives

`Math.floor` is `Int.floor`.  The JavaScript remainder operator `%` rounds
the quotient toward zero and gives the remainder the sign of the dividend:
`a % b = a - b * trunc(a / b)`. -/

/-- Truncation toward zero, the quotient rounding used by the JavaScript
`%` operator. -/
noncomputable def jsTrunc (x : ℝ) : ℤ :=
  by classical exact if 0 ≤ x then ⌊x⌋ else ⌈x⌉

/-- The JavaScript remainder operator `%` on numbers:
`a % b = a - b * trunc(a / b)`. -/
noncomputable def jsMod (a b : ℝ) : ℝ := a - b * (jsTrunc (a / b) : ℝ)

theorem jsTrunc_of_nonneg {x : ℝ} (hx : 0 ≤ x) : jsTrunc x = ⌊x⌋ := by
  simp [jsTrunc, hx]

theorem jsMod_eq_fract_mul {a b : ℝ} (ha : 0 ≤ a) (hb : 0 < b) :
    jsMod a b = b * Int.fract (a / b) := by
  rw [jsMod, jsTrunc_of_nonneg (div_nonneg ha hb.le), Int.fract, mul_sub,
    mul_div_cancel₀ a hb.ne']

theorem jsMod_nonneg {a b : ℝ} (ha : 0 ≤ a) (hb : 0 < b) : 0 ≤ jsMod a b := by
  rw [jsMod_eq_fract_mul ha hb]
  exact mul_nonneg hb.le (Int.fract_nonneg _)

theorem jsMod_lt {a b : ℝ} (ha : 0 ≤ a) (hb : 0 < b) : jsMod a b < b := by
  rw [jsMod_eq_fract_mul ha hb]
  calc b * Int.fract (a / b) < b * 1 := by
        exact mul_lt_mul_of_pos_left (Int.fract_lt_one _) hb
    _ = b := mul_one b

/-! ### Floor-distance formulas (`drawFloor`, lines 292-330) -/

/-- The raw floor distance of screen row `y` (line 299):
`distance = data.projection.height / (2 * y - data.projection.height)`. -/
noncomputable def floorRawDistance (y : ℝ) : ℝ :=
  (projectionHeight : ℝ) / (2 * y - (projectionHeight : ℝ))

/-- The perspective-corrected floor distance (line 300):
`distance = distance / Math.cos(degreeToRadians(playerAngle) - degreeToRadians(rayAngle))`. -/
noncomputable def floorCorrectedDistance (y playerAngle rayAngle : ℝ) : ℝ :=
  floorRawDistance y /
    Real.cos (degreeToRadians playerAngle - degreeToRadians rayAngle)

theorem degreeToRadians_sub (a b : ℝ) :
    degreeToRadians a - degreeToRadians b = degreeToRadians (a - b) := by
  unfold degreeToRadians; ring

/-- C3 counterexample: at the bottom projection row `y = projectionHeight - 1 = 119`
the floor-distance formula yields `120 / 118`, not `1`. -/
theorem c3_counterexample :
    floorRawDistance ((projectionHeight : ℝ) - 1) ≠ 1 := by
  have h : (projectionHeight : ℝ) = 120 := by norm_num [projectionHeight, screenHeight, screenScale]
  rw [floorRawDistance, h]
  norm_num

/-- C3 (amended): at the bottom row `y = projectionHeight - 1` the raw floor
distance equals `projectionHeight / (projectionHeight - 2) = 60/59`; the
formula yields exactly `1` only at `y = projectionHeight`, which lies outside
the floor loop's range `y < projectionHeight`. -/
theorem c3_floor_distance_bottom_row :
    floorRawDistance ((projectionHeight : ℝ) - 1) = 60 / 59 ∧
      floorRawDistance (projectionHeight : ℝ) = 1 := by
  have h : (projectionHeight : ℝ) = 120 := by norm_num [projectionHeight, screenHeight, screenScale]
  rw [floorRawDistance, floorRawDistance, h]
  norm_num

/-! ### The per-column wall finder (`rayCasting`, lines 194-244) -/

/-- The marching ray's current position (lines 199-202). -/
structure Ray where
  x : ℝ
  y : ℝ

/-- Source `data.map.length`, the number of rows. -/
def mapHeight (m : List (List ℕ)) : ℕ := m.length

/-- Source `data.map[0].length`, the width used by the bounds checks. -/
def mapWidth (m : List (List ℕ)) : ℕ := (m.getD 0 []).length

/-- The bounds check of line 214:
`ray.y < 0 || ray.y >= data.map.length || ray.x < 0 || ray.x >= data.map[0].length`. -/
def rayOut (m : List (List ℕ)) (r : Ray) : Prop :=
  r.y < 0 ∨ (mapHeight m : ℝ) ≤ r.y ∨ r.x < 0 ∨ (mapWidth m : ℝ) ≤ r.x

/-- Source `data.map[row][col]` (line 217).  Callers only evaluate this after the
bounds check, so `row` and `col` are then within the grid. -/
def tileAt (m : List (List ℕ)) (row col : ℤ) : ℕ :=
  (m.getD row.toNat []).getD col.toNat 0

open scoped Classical

/-- The wall-finder `while` loop (lines 209-219), with an explicit fuel
bound on the number of iterations; wall id `0` with the current position is
returned when the fuel runs out while the loop is still running. -/
noncomputable def findWall (m : List (List ℕ)) (rayCos raySin : ℝ) :
    ℕ → Ray → ℕ × Ray
  | 0, r => (0, r)
  | fuel + 1, r =>
    let next : Ray := ⟨r.x + rayCos, r.y + raySin⟩
    if rayOut m next then (1, next)
    else if tileAt m ⌊next.y⌋ ⌊next.x⌋ = 0 then
      findWall m rayCos raySin fuel next
    else (tileAt m ⌊next.y⌋ ⌊next.x⌋, next)

/-- The per-column result recorded by the loop body of `rayCasting`
(the spec's `RayHit`). -/
structure Hit where
  wall : ℕ
  hitX : ℝ
  hitY : ℝ
  rawDistance : ℝ
  correctedDistance : ℝ
  rayAngle : ℝ
  wallHeight : ℤ
  texturePositionX : ℤ

instance : Inhabited Hit := ⟨⟨0, 0, 0, 0, 0, 0, 0, 0⟩⟩

/-- The widths of the entries of `data.textures` (lines 97-122). -/
def textureWidths : List ℕ := [8, 16]

/-- The width of `data.textures[wall - 1]` (line 231).  A wall id of `0` or
beyond the table would make the JavaScript dereference `undefined`; the
model returns width `0` there. -/
def texWidth (wall : ℕ) : ℕ :=
  if wall = 0 then 0 else textureWidths.getD (wall - 1) 0

/-- The wall texture column of line 234:
`Math.floor((texture.width * (ray.x + ray.y)) % texture.width)`. -/
noncomputable def texturePositionX (w : ℕ) (hx hy : ℝ) : ℤ :=
  ⌊jsMod ((w : ℝ) * (hx + hy)) (w : ℝ)⌋

/-- The body of the per-column loop of `rayCasting` (lines 198-239): march
the ray (lines 204-219), take the Euclidean distance (line 222), apply the
fisheye fix (line 225), and record wall height (line 228) and texture
column (lines 231-234). -/
noncomputable def castColumn (m : List (List ℕ)) (px py pangle rayAngle : ℝ)
    (fuel : ℕ) : Hit :=
  let rayCos := Real.cos (degreeToRadians rayAngle) / (precision : ℝ)
  let raySin := Real.sin (degreeToRadians rayAngle) / (precision : ℝ)
  let fw := findWall m rayCos raySin fuel ⟨px, py⟩
  let distance0 := Real.sqrt ((px - fw.2.x) ^ 2 + (py - fw.2.y) ^ 2)
  let distance := distance0 * Real.cos (degreeToRadians (rayAngle - pangle))
  { wall := fw.1
    hitX := fw.2.x
    hitY := fw.2.y
    rawDistance := distance0
    correctedDistance := distance
    rayAngle := rayAngle
    wallHeight := ⌊projectionHalfHeight / distance⌋
    texturePositionX := texturePositionX (texWidth fw.1) fw.2.x fw.2.y }

/-- The column loop of `rayCasting` (lines 195-243): the ray angle starts at
`data.player.angle - data.player.halfFov` and gains `incrementAngle` per
column (line 242). -/
noncomputable def rayLoop (m : List (List ℕ)) (px py pangle : ℝ) (fuel : ℕ) :
    ℕ → ℝ → List Hit
  | 0, _ => []
  | n + 1, rayAngle =>
    castColumn m px py pangle rayAngle fuel ::
      rayLoop m px py pangle fuel n (rayAngle + incrementAngle)

/-- Source `rayCasting` (lines 194-244), as the list of per-column hits. -/
noncomputable def rayCasting (m : List (List ℕ)) (px py pangle : ℝ)
    (fuel : ℕ) : List Hit :=
  rayLoop m px py pangle fuel projectionWidth (pangle - halfFov)

/-- The hit of column `k`. -/
noncomputable def hitAt (m : List (List ℕ)) (px py pangle : ℝ)
    (fuel k : ℕ) : Hit :=
  (rayCasting m px py pangle fuel).getD k default

theorem rayLoop_length (m : List (List ℕ)) (px py pangle : ℝ) (fuel : ℕ) :
    ∀ (n : ℕ) (a : ℝ), (rayLoop m px py pangle fuel n a).length = n := by
  intro n
  induction n with
  | zero => intro a; simp [rayLoop]
  | succ n ih => intro a; simp [rayLoop, ih]

theorem rayLoop_getD (m : List (List ℕ)) (px py pangle : ℝ) (fuel : ℕ) :
    ∀ (n k : ℕ) (a : ℝ), k < n →
      (rayLoop m px py pangle fuel n a).getD k default =
        castColumn m px py pangle (a + k * incrementAngle) fuel := by
  intro n
  induction n with
  | zero => intro k a hk; omega
  | succ n ih =>
    intro k a hk
    cases k with
    | zero => simp [rayLoop]
    | succ k =>
      rw [rayLoop, List.getD_cons_succ, ih k (a + incrementAngle) (by omega)]
      congr 1
      push_cast
      ring

theorem hitAt_eq (m : List (List ℕ)) (px py pangle : ℝ) (fuel k : ℕ)
    (hk : k < projectionWidth) :
    hitAt m px py pangle fuel k =
      castColumn m px py pangle (pangle - halfFov + k * incrementAngle) fuel := by
  rw [hitAt, rayCasting, rayLoop_getD m px py pangle fuel projectionWidth k _ hk]

theorem findWall_succ (m : List (List ℕ)) (rc rs : ℝ) (fuel : ℕ) (r : Ray) :
    findWall m rc rs (fuel + 1) r =
      if rayOut m ⟨r.x + rc, r.y + rs⟩ then (1, ⟨r.x + rc, r.y + rs⟩)
      else if tileAt m ⌊r.y + rs⌋ ⌊r.x + rc⌋ = 0 then
        findWall m rc rs fuel ⟨r.x + rc, r.y + rs⟩
      else (tileAt m ⌊r.y + rs⌋ ⌊r.x + rc⌋, ⟨r.x + rc, r.y + rs⟩) :=
  rfl

/-- Once the wall finder has stopped, giving it more fuel does not change
its result. -/
theorem findWall_stable (m : List (List ℕ)) (rc rs : ℝ) :
    ∀ (fuel : ℕ) (r : Ray), (findWall m rc rs fuel r).1 ≠ 0 →
      ∀ fuel' : ℕ, fuel ≤ fuel' →
        findWall m rc rs fuel' r = findWall m rc rs fuel r := by
  intro fuel
  induction fuel with
  | zero =>
    intro r h fuel' _
    exact absurd rfl h
  | succ fuel ih =>
    intro r h fuel' hle
    obtain ⟨f, rfl⟩ : ∃ f, fuel' = f + 1 := ⟨fuel' - 1, by omega⟩
    rw [findWall_succ] at h ⊢
    rw [findWall_succ]
    split_ifs at h ⊢ with hout htile
    · rfl
    · exact ih _ h f (by omega)
    · rfl

/-- While the wall finder is still running it has stepped once per fuel unit
and every sampled point, the last one included, passed the bounds check. -/
theorem findWall_zero_run (m : List (List ℕ)) (rc rs : ℝ) :
    ∀ (fuel : ℕ) (r : Ray), (findWall m rc rs fuel r).1 = 0 → 1 ≤ fuel →
      ¬rayOut m (findWall m rc rs fuel r).2 ∧
      (findWall m rc rs fuel r).2.x = r.x + fuel * rc ∧
      (findWall m rc rs fuel r).2.y = r.y + fuel * rs := by
  intro fuel
  induction fuel with
  | zero =>
    intro r _ h1
    omega
  | succ fuel ih =>
    intro r h _
    rw [findWall_succ] at h ⊢
    by_cases hout : rayOut m ⟨r.x + rc, r.y + rs⟩
    · rw [if_pos hout] at h
      exact absurd h one_ne_zero
    · rw [if_neg hout] at h ⊢
      by_cases htile : tileAt m ⌊r.y + rs⌋ ⌊r.x + rc⌋ = 0
      · rw [if_pos htile] at h ⊢
        rcases Nat.eq_zero_or_pos fuel with hf | hf
        · subst hf
          refine ⟨hout, ?_, ?_⟩
          · show r.x + rc = r.x + ((0 : ℕ) + 1 : ℕ) * rc
            push_cast; ring
          · show r.y + rs = r.y + ((0 : ℕ) + 1 : ℕ) * rs
            push_cast; ring
        · obtain ⟨hin, hx, hy⟩ := ih _ h hf
          refine ⟨hin, ?_, ?_⟩
          · rw [hx]
            show r.x + rc + (fuel : ℝ) * rc = r.x + ((fuel + 1 : ℕ) : ℝ) * rc
            push_cast; ring
          · rw [hy]
            show r.y + rs + (fuel : ℝ) * rs = r.y + ((fuel + 1 : ℕ) : ℝ) * rs
            push_cast; ring
      · rw [if_neg htile] at h
        exact absurd h htile

/-- The wall finder's final position lies `n` steps along the ray for some
`1 ≤ n ≤ fuel`. -/
theorem findWall_steps (m : List (List ℕ)) (rc rs : ℝ) :
    ∀ (fuel : ℕ) (r : Ray), 1 ≤ fuel →
      ∃ n : ℕ, 1 ≤ n ∧ n ≤ fuel ∧
        (findWall m rc rs fuel r).2.x = r.x + n * rc ∧
        (findWall m rc rs fuel r).2.y = r.y + n * rs := by
  intro fuel
  induction fuel with
  | zero =>
    intro r h1
    omega
  | succ fuel ih =>
    intro r _
    rw [findWall_succ]
    by_cases hout : rayOut m ⟨r.x + rc, r.y + rs⟩
    · rw [if_pos hout]
      exact ⟨1, le_refl 1, by omega, by push_cast; ring, by push_cast; ring⟩
    · rw [if_neg hout]
      by_cases htile : tileAt m ⌊r.y + rs⌋ ⌊r.x + rc⌋ = 0
      · rw [if_pos htile]
        rcases Nat.eq_zero_or_pos fuel with hf | hf
        · subst hf
          refine ⟨1, le_refl 1, by omega, ?_, ?_⟩
          · show r.x + rc = r.x + ((1 : ℕ) : ℝ) * rc
            push_cast; ring
          · show r.y + rs = r.y + ((1 : ℕ) : ℝ) * rs
            push_cast; ring
        · obtain ⟨n, hn1, hn2, hx, hy⟩ := ih ⟨r.x + rc, r.y + rs⟩ hf
          refine ⟨n + 1, by omega, by omega, ?_, ?_⟩
          · rw [hx]
            show r.x + rc + (n : ℝ) * rc = r.x + ((n + 1 : ℕ) : ℝ) * rc
            push_cast; ring
          · rw [hy]
            show r.y + rs + (n : ℝ) * rs = r.y + ((n + 1 : ℕ) : ℝ) * rs
            push_cast; ring
      · rw [if_neg htile]
        exact ⟨1, le_refl 1, by omega, by push_cast; ring, by push_cast; ring⟩

/-- At least one of the two components of a unit direction has magnitude
`7/10` or more. -/
theorem cos_or_sin_large (θ : ℝ) :
    7 / 10 ≤ |Real.cos θ| ∨ 7 / 10 ≤ |Real.sin θ| := by
  by_contra h
  push_neg at h
  obtain ⟨h1, h2⟩ := h
  nlinarith [Real.sin_sq_add_cos_sq θ, sq_abs (Real.cos θ), sq_abs (Real.sin θ),
    abs_nonneg (Real.cos θ), abs_nonneg (Real.sin θ)]

/-- Fuel that always suffices for the wall finder: marching
`92 * (mapWidth + mapHeight)` steps of Euclidean length `1/64` moves the
dominant coordinate past any in-bounds start. -/
def marchFuel (m : List (List ℕ)) : ℕ := 92 * (mapWidth m + mapHeight m)

/-- From any in-bounds start, the wall finder run with `marchFuel` fuel has
stopped: the `while` loop of lines 210-219 terminates. -/
theorem findWall_terminates (m : List (List ℕ)) (θ px py : ℝ)
    (hx0 : 0 ≤ px) (hx1 : px < (mapWidth m : ℝ))
    (hy0 : 0 ≤ py) (hy1 : py < (mapHeight m : ℝ)) :
    (findWall m (Real.cos (degreeToRadians θ) / (precision : ℝ))
      (Real.sin (degreeToRadians θ) / (precision : ℝ))
      (marchFuel m) ⟨px, py⟩).1 ≠ 0 := by
  set rc := Real.cos (degreeToRadians θ) / (precision : ℝ) with hrc
  set rs := Real.sin (degreeToRadians θ) / (precision : ℝ) with hrs
  intro h
  have hW : 1 ≤ mapWidth m := by
    by_contra hW
    have : (mapWidth m : ℝ) = 0 := by
      have : mapWidth m = 0 := by omega
      rw [this]; norm_num
    linarith
  have hH : 1 ≤ mapHeight m := by
    by_contra hH
    have : (mapHeight m : ℝ) = 0 := by
      have : mapHeight m = 0 := by omega
      rw [this]; norm_num
    linarith
  have hfuel : 1 ≤ marchFuel m := by
    rw [marchFuel]; omega
  obtain ⟨hin, hx, hy⟩ :=
    findWall_zero_run m rc rs (marchFuel m) ⟨px, py⟩ h hfuel
  rw [rayOut] at hin
  push_neg at hin
  obtain ⟨hfy0, hfy1, hfx0, hfx1⟩ := hin
  rw [hx] at hfx0 hfx1
  rw [hy] at hfy0 hfy1
  have hprec : (precision : ℝ) = 64 := by norm_num [precision]
  have hF : (marchFuel m : ℝ) = 92 * ((mapWidth m : ℝ) + (mapHeight m : ℝ)) := by
    rw [marchFuel]; push_cast; ring
  have hFpos : (0 : ℝ) ≤ (marchFuel m : ℝ) := Nat.cast_nonneg _
  have hWr : (1 : ℝ) ≤ (mapWidth m : ℝ) := by exact_mod_cast hW
  have hHr : (1 : ℝ) ≤ (mapHeight m : ℝ) := by exact_mod_cast hH
  have habsx : (marchFuel m : ℝ) * |rc| < (mapWidth m : ℝ) := by
    rw [← abs_of_nonneg hFpos, ← abs_mul]
    apply abs_lt.mpr
    constructor <;> simp only at hfx0 hfx1 <;> linarith
  have habsy : (marchFuel m : ℝ) * |rs| < (mapHeight m : ℝ) := by
    rw [← abs_of_nonneg hFpos, ← abs_mul]
    apply abs_lt.mpr
    constructor <;> simp only at hfy0 hfy1 <;> linarith
  rcases cos_or_sin_large (degreeToRadians θ) with hbig | hbig
  · have hrcabs : 7 / 640 ≤ |rc| := by
      rw [hrc, hprec, abs_div]
      rw [show |(64 : ℝ)| = 64 by norm_num]
      linarith
    have := mul_le_mul_of_nonneg_left hrcabs hFpos
    rw [hF] at this habsx
    nlinarith
  · have hrsabs : 7 / 640 ≤ |rs| := by
      rw [hrs, hprec, abs_div]
      rw [show |(64 : ℝ)| = 64 by norm_num]
      linarith
    have := mul_le_mul_of_nonneg_left hrsabs hFpos
    rw [hF] at this habsy
    nlinarith

/-- A map is fully enclosed when it is at least `2 × 2` and every tile of
the first row, last row, first column and last column is non-zero. -/
def enclosedMap (m : List (List ℕ)) : Prop :=
  2 ≤ mapHeight m ∧ 2 ≤ mapWidth m ∧
    (∀ j, j < mapWidth m →
      (m.getD 0 []).getD j 0 ≠ 0 ∧ (m.getD (mapHeight m - 1) []).getD j 0 ≠ 0) ∧
    (∀ i, i < mapHeight m →
      (m.getD i []).getD 0 0 ≠ 0 ∧ (m.getD i []).getD (mapWidth m - 1) 0 ≠ 0)

/-- A position strictly inside the map: at least one tile away from the
outer edge of the grid. -/
def strictlyInside (m : List (List ℕ)) (px py : ℝ) : Prop :=
  1 ≤ px ∧ px ≤ (mapWidth m : ℝ) - 1 ∧ 1 ≤ py ∧ py ≤ (mapHeight m : ℝ) - 1

/-- The cosine of an angle of at most `30` degrees is positive. -/
theorem cos_deg_pos {d : ℝ} (h1 : -30 ≤ d) (h2 : d ≤ 30) :
    0 < Real.cos (degreeToRadians d) := by
  have hpi := Real.pi_pos
  apply Real.cos_pos_of_mem_Ioo
  constructor
  · rw [degreeToRadians]
    have h3 : 0 < Real.pi * (d + 90) := mul_pos hpi (by linarith)
    nlinarith
  · rw [degreeToRadians]
    have h3 : 0 < Real.pi * (90 - d) := mul_pos hpi (by linarith)
    nlinarith

/-- With at least one fuel unit and a forward-facing ray angle, the
corrected distance of a column is positive: the hit point lies at least one
marching step from the player. -/
theorem castColumn_corrected_pos (m : List (List ℕ)) (px py pangle a : ℝ)
    (fuel : ℕ) (hfuel : 1 ≤ fuel)
    (hcos : 0 < Real.cos (degreeToRadians (a - pangle))) :
    0 < (castColumn m px py pangle a fuel).correctedDistance := by
  obtain ⟨n, hn1, hn2, hx, hy⟩ :=
    findWall_steps m (Real.cos (degreeToRadians a) / (precision : ℝ))
      (Real.sin (degreeToRadians a) / (precision : ℝ)) fuel ⟨px, py⟩ hfuel
  show 0 < Real.sqrt
      ((px - (findWall m (Real.cos (degreeToRadians a) / (precision : ℝ))
          (Real.sin (degreeToRadians a) / (precision : ℝ)) fuel ⟨px, py⟩).2.x) ^ 2 +
        (py - (findWall m (Real.cos (degreeToRadians a) / (precision : ℝ))
          (Real.sin (degreeToRadians a) / (precision : ℝ)) fuel ⟨px, py⟩).2.y) ^ 2) *
      Real.cos (degreeToRadians (a - pangle))
  apply mul_pos _ hcos
  apply Real.sqrt_pos.mpr
  rw [hx, hy]
  have hprec : (precision : ℝ) = 64 := by norm_num [precision]
  rw [hprec]
  have hsum : (Real.cos (degreeToRadians a) / 64) ^ 2 +
      (Real.sin (degreeToRadians a) / 64) ^ 2 = 1 / 4096 := by
    have h := Real.sin_sq_add_cos_sq (degreeToRadians a)
    field_simp
    linarith
  have harg : (px - (px + (n : ℝ) * (Real.cos (degreeToRadians a) / 64))) ^ 2 +
      (py - (py + (n : ℝ) * (Real.sin (degreeToRadians a) / 64))) ^ 2 =
        (n : ℝ) ^ 2 * ((Real.cos (degreeToRadians a) / 64) ^ 2 +
          (Real.sin (degreeToRadians a) / 64) ^ 2) := by ring
  rw [harg, hsum]
  have hn : (1 : ℝ) ≤ (n : ℝ) := by exact_mod_cast hn1
  nlinarith

/-- More fuel does not change a column whose wall finder has stopped. -/
theorem castColumn_stable (m : List (List ℕ)) (px py pangle a : ℝ)
    (fuel fuel' : ℕ)
    (h : (findWall m (Real.cos (degreeToRadians a) / (precision : ℝ))
      (Real.sin (degreeToRadians a) / (precision : ℝ)) fuel ⟨px, py⟩).1 ≠ 0)
    (hle : fuel ≤ fuel') :
    castColumn m px py pangle a fuel' = castColumn m px py pangle a fuel := by
  simp only [castColumn]
  rw [findWall_stable m _ _ fuel ⟨px, py⟩ h fuel' hle]

/-- C1: for every player position strictly inside a fully enclosed map and
every one of the `projectionWidth` columns, the wall-finder loop of
`rayCasting` terminates (a finite fuel bound reaches the stopped state,
which further fuel does not change) and the resulting corrected distance is
strictly positive. -/
theorem c1_wall_finder_termination (m : List (List ℕ)) (px py pangle : ℝ)
    (k : ℕ) (hk : k < projectionWidth)
    (henc : enclosedMap m) (hin : strictlyInside m px py) :
    ∃ fuel : ℕ, 1 ≤ fuel ∧ (hitAt m px py pangle fuel k).wall ≠ 0 ∧
      0 < (hitAt m px py pangle fuel k).correctedDistance ∧
      ∀ fuel' : ℕ, fuel ≤ fuel' →
        hitAt m px py pangle fuel' k = hitAt m px py pangle fuel k := by
  obtain ⟨hpx1, hpx2, hpy1, hpy2⟩ := hin
  have hx0 : 0 ≤ px := by linarith
  have hx1 : px < (mapWidth m : ℝ) := by linarith
  have hy0 : 0 ≤ py := by linarith
  have hy1 : py < (mapHeight m : ℝ) := by linarith
  have hW : 1 ≤ mapWidth m := by
    by_contra hW
    have : (mapWidth m : ℝ) = 0 := by
      have : mapWidth m = 0 := by omega
      rw [this]; norm_num
    linarith
  have hfuel : 1 ≤ marchFuel m := by rw [marchFuel]; omega
  have hwall := findWall_terminates m (pangle - halfFov + k * incrementAngle)
    px py hx0 hx1 hy0 hy1
  have hw160 : projectionWidth = 160 := by
    norm_num [projectionWidth, screenWidth, screenScale]
  have hhalf : halfFov = 30 := by norm_num [halfFov, fov]
  have hinc : incrementAngle = 3 / 8 := by
    rw [incrementAngle, fov, hw160]; norm_num
  have hkr : (k : ℝ) ≤ 159 := by
    have : k ≤ 159 := by omega
    exact_mod_cast this
  have hkr0 : (0 : ℝ) ≤ (k : ℝ) := Nat.cast_nonneg k
  have hcos : 0 < Real.cos (degreeToRadians
      (pangle - halfFov + k * incrementAngle - pangle)) := by
    apply cos_deg_pos
    · rw [hhalf, hinc]; nlinarith
    · rw [hhalf, hinc]; nlinarith
  refine ⟨marchFuel m, hfuel, ?_, ?_, ?_⟩
  · rw [hitAt_eq m px py pangle (marchFuel m) k hk]
    exact hwall
  · rw [hitAt_eq m px py pangle (marchFuel m) k hk]
    exact castColumn_corrected_pos m px py pangle _ (marchFuel m) hfuel hcos
  · intro fuel' hle
    rw [hitAt_eq m px py pangle fuel' k hk,
      hitAt_eq m px py pangle (marchFuel m) k hk]
    exact castColumn_stable m px py pangle _ (marchFuel m) fuel' hwall hle

/-- C1 witness: the engine's own map with the starting player pose. -/
theorem c1_wall_finder_termination_witness :
    5 < projectionWidth ∧ enclosedMap dataMap ∧ strictlyInside dataMap 2 2 ∧
      (∃ fuel : ℕ, 1 ≤ fuel ∧ (hitAt dataMap 2 2 90 fuel 5).wall ≠ 0 ∧
        0 < (hitAt dataMap 2 2 90 fuel 5).correctedDistance ∧
        ∀ fuel' : ℕ, fuel ≤ fuel' →
          hitAt dataMap 2 2 90 fuel' 5 = hitAt dataMap 2 2 90 fuel 5) := by
  have h1 : 5 < projectionWidth := by
    norm_num [projectionWidth, screenWidth, screenScale]
  have h2 : enclosedMap dataMap := by
    unfold enclosedMap mapWidth mapHeight
    decide
  have hw : mapWidth dataMap = 10 := rfl
  have hh : mapHeight dataMap = 10 := rfl
  have h3 : strictlyInside dataMap 2 2 := by
    rw [strictlyInside, hw, hh]
    norm_num
  exact ⟨h1, h2, h3, c1_wall_finder_termination dataMap 2 2 90 5 h1 h2 h3⟩

/-- C2: each call to `rayCasting` yields exactly `projectionWidth` per-column
hits in column order; column `0` has ray angle `playerAngle - fov/2`, column
`k` has ray angle `playerAngle - fov/2 + k * incrementAngle`, and the last
column has ray angle `playerAngle + fov/2 - incrementAngle`. -/
theorem c2_column_count_and_angles (m : List (List ℕ)) (px py pangle : ℝ)
    (fuel k : ℕ) (hk : k < projectionWidth) :
    (rayCasting m px py pangle fuel).length = projectionWidth ∧
      (hitAt m px py pangle fuel 0).rayAngle = pangle - fov / 2 ∧
      (hitAt m px py pangle fuel k).rayAngle =
        pangle - fov / 2 + k * incrementAngle ∧
      (hitAt m px py pangle fuel (projectionWidth - 1)).rayAngle =
        pangle + fov / 2 - incrementAngle := by
  have hw : projectionWidth = 160 := by norm_num [projectionWidth, screenWidth, screenScale]
  have hwr : (projectionWidth : ℝ) = 160 := by rw [hw]; norm_num
  have hinc : incrementAngle = 60 / 160 := by
    rw [incrementAngle, hwr, fov]
  refine ⟨?_, ?_, ?_, ?_⟩
  · rw [rayCasting, rayLoop_length]
  · rw [hitAt_eq m px py pangle fuel 0 (by omega), castColumn]
    simp [halfFov]
  · rw [hitAt_eq m px py pangle fuel k hk, castColumn]
    simp [halfFov]
  · rw [hitAt_eq m px py pangle fuel (projectionWidth - 1) (by omega), castColumn, hw]
    simp only [halfFov, fov, hinc]
    norm_num
    linarith

/-- C5: every column's corrected distance is the raw Euclidean distance times
the cosine of the difference between the column's ray angle and the player's
heading; when the ray angle equals the player's heading the corrected
distance equals the raw distance. -/
theorem c5_fisheye_correction (m : List (List ℕ)) (px py pangle : ℝ)
    (fuel k : ℕ) (hk : k < projectionWidth) :
    (hitAt m px py pangle fuel k).correctedDistance =
        (hitAt m px py pangle fuel k).rawDistance *
          Real.cos (degreeToRadians ((hitAt m px py pangle fuel k).rayAngle - pangle)) ∧
      ((hitAt m px py pangle fuel k).rayAngle = pangle →
        (hitAt m px py pangle fuel k).correctedDistance =
          (hitAt m px py pangle fuel k).rawDistance) := by
  rw [hitAt_eq m px py pangle fuel k hk, castColumn]
  constructor
  · rfl
  · intro h
    simp only at h ⊢
    rw [h, sub_self]
    simp [degreeToRadians]

/-- C2 witness: the engine's configuration at column `7`. -/
theorem c2_column_count_and_angles_witness :
    7 < projectionWidth ∧
      ((rayCasting dataMap 2 2 90 0).length = projectionWidth ∧
        (hitAt dataMap 2 2 90 0 0).rayAngle = 90 - fov / 2 ∧
        (hitAt dataMap 2 2 90 0 7).rayAngle = 90 - fov / 2 + 7 * incrementAngle ∧
        (hitAt dataMap 2 2 90 0 (projectionWidth - 1)).rayAngle =
          90 + fov / 2 - incrementAngle) := by
  have h : 7 < projectionWidth := by
    norm_num [projectionWidth, screenWidth, screenScale]
  refine ⟨h, ?_⟩
  have := c2_column_count_and_angles dataMap 2 2 90 0 7 h
  simpa using this

/-- C5 witness: the engine's configuration at column `80`. -/
theorem c5_fisheye_correction_witness :
    80 < projectionWidth ∧
      ((hitAt dataMap 2 2 90 0 80).correctedDistance =
          (hitAt dataMap 2 2 90 0 80).rawDistance *
            Real.cos (degreeToRadians ((hitAt dataMap 2 2 90 0 80).rayAngle - 90)) ∧
        ((hitAt dataMap 2 2 90 0 80).rayAngle = 90 →
          (hitAt dataMap 2 2 90 0 80).correctedDistance =
            (hitAt dataMap 2 2 90 0 80).rawDistance)) := by
  have h : 80 < projectionWidth := by
    norm_num [projectionWidth, screenWidth, screenScale]
  exact ⟨h, c5_fisheye_correction dataMap 2 2 90 0 80 h⟩

/-- C6: the perspective-corrected floor distance computed by `drawFloor`
equals the raw floor distance divided by the cosine of the difference between
the column's ray angle and the player's heading. -/
theorem c6_floor_perspective_correction (y playerAngle rayAngle : ℝ) :
    floorCorrectedDistance y playerAngle rayAngle =
      floorRawDistance y / Real.cos (degreeToRadians (rayAngle - playerAngle)) := by
  have h : degreeToRadians (playerAngle - rayAngle) =
      -degreeToRadians (rayAngle - playerAngle) := by
    unfold degreeToRadians; ring
  rw [floorCorrectedDistance, degreeToRadians_sub, h, Real.cos_neg]

/-! ### The movement controller (`movePlayer`, lines 502-545) -/

/-- The mutable player pose (`data.player`). -/
structure Player where
  x : ℝ
  y : ℝ
  angle : ℝ

/-- The four key-state booleans (`data.key.*.active`). -/
structure Keys where
  up : Bool
  down : Bool
  left : Bool
  right : Bool

/-- The collision lookup `data.map[row][col] == 0` support: an out-of-range
access in the JavaScript yields `undefined` (or throws), which never
compares equal to `0`, so the move is not committed; the model returns the
blocking value `1` there. -/
def tileSafe (m : List (List ℕ)) (row col : ℤ) : ℕ :=
  if 0 ≤ row ∧ row < (mapHeight m : ℤ) ∧ 0 ≤ col ∧
      col < ((m.getD row.toNat []).length : ℤ) then
    (m.getD row.toNat []).getD col.toNat 0
  else 1

/-- Source `playerCos` of the movement branches (lines 504, 521):
`Math.cos(degreeToRadians(data.player.angle)) * data.player.speed.movement`. -/
noncomputable def moveCos (mov : ℝ) (p : Player) : ℝ :=
  Real.cos (degreeToRadians p.angle) * mov

/-- Source `playerSin` of the movement branches (lines 505, 522). -/
noncomputable def moveSin (mov : ℝ) (p : Player) : ℝ :=
  Real.sin (degreeToRadians p.angle) * mov

/-- Source `checkX` of the forward branch (line 508):
`Math.floor(newX + playerCos * data.player.radius)`. -/
noncomputable def upCheckX (mov : ℝ) (p : Player) : ℤ :=
  ⌊p.x + moveCos mov p + moveCos mov p * playerRadius⌋

/-- Source `checkY` of the forward branch (line 509). -/
noncomputable def upCheckY (mov : ℝ) (p : Player) : ℤ :=
  ⌊p.y + moveSin mov p + moveSin mov p * playerRadius⌋

/-- Source `checkX` of the backward branch (line 525):
`Math.floor(newX - playerCos * data.player.radius)`. -/
noncomputable def downCheckX (mov : ℝ) (p : Player) : ℤ :=
  ⌊p.x - moveCos mov p - moveCos mov p * playerRadius⌋

/-- Source `checkY` of the backward branch (line 526). -/
noncomputable def downCheckY (mov : ℝ) (p : Player) : ℤ :=
  ⌊p.y - moveSin mov p - moveSin mov p * playerRadius⌋

/-- The forward branch of `movePlayer` (lines 503-519): commit the `y` move
when `data.map[checkY][Math.floor(data.player.x)] == 0`, then commit the
`x` move when `data.map[Math.floor(data.player.y)][checkX] == 0`, reading
the already-updated `data.player.y`. -/
noncomputable def moveUp (m : List (List ℕ)) (mov : ℝ) (p : Player) : Player :=
  let newX := p.x + moveCos mov p
  let newY := p.y + moveSin mov p
  let y2 := if tileSafe m (upCheckY mov p) ⌊p.x⌋ = 0 then newY else p.y
  let x2 := if tileSafe m ⌊y2⌋ (upCheckX mov p) = 0 then newX else p.x
  ⟨x2, y2, p.angle⟩

/-- The backward branch of `movePlayer` (lines 520-535). -/
noncomputable def moveDown (m : List (List ℕ)) (mov : ℝ) (p : Player) : Player :=
  let newX := p.x - moveCos mov p
  let newY := p.y - moveSin mov p
  let y2 := if tileSafe m (downCheckY mov p) ⌊p.x⌋ = 0 then newY else p.y
  let x2 := if tileSafe m ⌊y2⌋ (downCheckX mov p) = 0 then newX else p.x
  ⟨x2, y2, p.angle⟩

/-- The turn-left update (lines 536-540): subtract the rotation speed, add
`360` if negative, then apply the JavaScript `%= 360`. -/
noncomputable def turnLeftAngle (rot a : ℝ) : ℝ :=
  let a1 := a - rot
  let a2 := if a1 < 0 then a1 + 360 else a1
  jsMod a2 360

/-- The turn-right update (lines 541-544): add the rotation speed, then
apply the JavaScript `%= 360`. -/
noncomputable def turnRightAngle (rot a : ℝ) : ℝ := jsMod (a + rot) 360

/-- Source `movePlayer` (lines 502-545), with the movement and rotation speeds of
`data.player.speed` passed explicitly; the four key branches run in order
with no mutual exclusion. -/
noncomputable def movePlayer (m : List (List ℕ)) (mov rot : ℝ) (k : Keys)
    (p : Player) : Player :=
  let p1 := if k.up then moveUp m mov p else p
  let p2 := if k.down then moveDown m mov p1 else p1
  let p3 := if k.left then ⟨p2.x, p2.y, turnLeftAngle rot p2.angle⟩ else p2
  if k.right then ⟨p3.x, p3.y, turnRightAngle rot p3.angle⟩ else p3

/-- Repeatedly turning left starting from heading `0`. -/
noncomputable def iterLeftTurn (rot : ℝ) : ℕ → ℝ
  | 0 => 0
  | n + 1 => turnLeftAngle rot (iterLeftTurn rot n)

theorem moveUp_angle (m : List (List ℕ)) (mov : ℝ) (p : Player) :
    (moveUp m mov p).angle = p.angle := rfl

theorem moveDown_angle (m : List (List ℕ)) (mov : ℝ) (p : Player) :
    (moveDown m mov p).angle = p.angle := rfl

/-- C4: the two collision checks of a movement branch are axis-separated:
the `y` coordinate moves exactly when the tile at `(checkY, floor(x))` is
walkable, the `x` coordinate moves exactly when the tile at
`(floor(current y), checkX)` is walkable, and a diagonal move blocked on the
`y` axis alone still commits the full `x` displacement (wall sliding). -/
theorem c4_axis_separated_collision (m : List (List ℕ)) (mov : ℝ) (p : Player)
    (hsin : moveSin mov p ≠ 0) (hcos : moveCos mov p ≠ 0) :
    ((moveUp m mov p).y = p.y + moveSin mov p ↔
        tileSafe m (upCheckY mov p) ⌊p.x⌋ = 0) ∧
      ((moveUp m mov p).x = p.x + moveCos mov p ↔
        tileSafe m ⌊(moveUp m mov p).y⌋ (upCheckX mov p) = 0) ∧
      (tileSafe m (upCheckY mov p) ⌊p.x⌋ ≠ 0 →
        tileSafe m ⌊p.y⌋ (upCheckX mov p) = 0 →
        (moveUp m mov p).y = p.y ∧
          (moveUp m mov p).x = p.x + moveCos mov p ∧
          (moveUp m mov p).x ≠ p.x) ∧
      ((moveDown m mov p).y = p.y - moveSin mov p ↔
        tileSafe m (downCheckY mov p) ⌊p.x⌋ = 0) ∧
      ((moveDown m mov p).x = p.x - moveCos mov p ↔
        tileSafe m ⌊(moveDown m mov p).y⌋ (downCheckX mov p) = 0) := by
  refine ⟨?_, ?_, ?_, ?_, ?_⟩
  · by_cases hA : tileSafe m (upCheckY mov p) ⌊p.x⌋ = 0
    · simp [moveUp, hA]
    · simp only [moveUp, if_neg hA]
      constructor
      · intro h
        exact absurd (by linarith [congrArg id h] : moveSin mov p = 0) hsin
      · intro h
        exact absurd h hA
  · by_cases hB : tileSafe m ⌊(moveUp m mov p).y⌋ (upCheckX mov p) = 0
    · constructor
      · intro _; exact hB
      · intro _
        show (if tileSafe m ⌊(moveUp m mov p).y⌋ (upCheckX mov p) = 0
            then p.x + moveCos mov p else p.x) = p.x + moveCos mov p
        rw [if_pos hB]
    · constructor
      · intro h
        exfalso
        apply hcos
        have hx : (moveUp m mov p).x = p.x :=
          by show (if tileSafe m ⌊(moveUp m mov p).y⌋ (upCheckX mov p) = 0
              then p.x + moveCos mov p else p.x) = p.x
             rw [if_neg hB]
        rw [hx] at h
        linarith
      · intro h
        exact absurd h hB
  · intro hA hB
    have hy : (moveUp m mov p).y = p.y := by
      show (if tileSafe m (upCheckY mov p) ⌊p.x⌋ = 0
          then p.y + moveSin mov p else p.y) = p.y
      rw [if_neg hA]
    have hcond : tileSafe m ⌊(moveUp m mov p).y⌋ (upCheckX mov p) = 0 := by
      rw [hy]; exact hB
    have hx : (moveUp m mov p).x = p.x + moveCos mov p := by
      show (if tileSafe m ⌊(moveUp m mov p).y⌋ (upCheckX mov p) = 0
          then p.x + moveCos mov p else p.x) = p.x + moveCos mov p
      rw [if_pos hcond]
    refine ⟨hy, hx, ?_⟩
    rw [hx]
    intro h
    exact hcos (by linarith)
  · by_cases hA : tileSafe m (downCheckY mov p) ⌊p.x⌋ = 0
    · simp [moveDown, hA]
    · simp only [moveDown, if_neg hA]
      constructor
      · intro h
        exact absurd (by linarith [congrArg id h] : moveSin mov p = 0) hsin
      · intro h
        exact absurd h hA
  · by_cases hB : tileSafe m ⌊(moveDown m mov p).y⌋ (downCheckX mov p) = 0
    · constructor
      · intro _; exact hB
      · intro _
        show (if tileSafe m ⌊(moveDown m mov p).y⌋ (downCheckX mov p) = 0
            then p.x - moveCos mov p else p.x) = p.x - moveCos mov p
        rw [if_pos hB]
    · constructor
      · intro h
        exfalso
        apply hcos
        have hx : (moveDown m mov p).x = p.x :=
          by show (if tileSafe m ⌊(moveDown m mov p).y⌋ (downCheckX mov p) = 0
              then p.x - moveCos mov p else p.x) = p.x
             rw [if_neg hB]
        rw [hx] at h
        linarith
      · intro h
        exact absurd h hB

/-- C4 witness: a diagonal pose against the engine's own map. -/
theorem c4_axis_separated_collision_witness :
    moveSin movementSpeed (Player.mk 2.5 2.9 45) ≠ 0 ∧
      moveCos movementSpeed (Player.mk 2.5 2.9 45) ≠ 0 ∧
      ((moveUp dataMap movementSpeed (Player.mk 2.5 2.9 45)).y =
          (Player.mk (2.5 : ℝ) 2.9 45).y +
            moveSin movementSpeed (Player.mk 2.5 2.9 45) ↔
        tileSafe dataMap (upCheckY movementSpeed (Player.mk 2.5 2.9 45))
          ⌊(Player.mk (2.5 : ℝ) 2.9 45).x⌋ = 0) := by
  have h45 : degreeToRadians (Player.mk (2.5 : ℝ) 2.9 45).angle = Real.pi / 4 := by
    show degreeToRadians 45 = Real.pi / 4
    rw [degreeToRadians]; ring
  have hsin : moveSin movementSpeed (Player.mk 2.5 2.9 45) ≠ 0 := by
    rw [moveSin, movementSpeed, h45, Real.sin_pi_div_four]
    positivity
  have hcos : moveCos movementSpeed (Player.mk 2.5 2.9 45) ≠ 0 := by
    rw [moveCos, movementSpeed, h45, Real.cos_pi_div_four]
    positivity
  exact ⟨hsin, hcos,
    (c4_axis_separated_collision dataMap movementSpeed
      (Player.mk 2.5 2.9 45) hsin hcos).1⟩

theorem turnLeftAngle_mem (rot a : ℝ) (h0 : 0 ≤ a) (h1 : a < 360)
    (hr0 : 0 < rot) (hr1 : rot < 360) :
    0 ≤ turnLeftAngle rot a ∧ turnLeftAngle rot a < 360 := by
  simp only [turnLeftAngle]
  by_cases hneg : a - rot < 0
  · rw [if_pos hneg]
    have h2 : 0 ≤ a - rot + 360 := by linarith
    exact ⟨jsMod_nonneg h2 (by norm_num), jsMod_lt h2 (by norm_num)⟩
  · rw [if_neg hneg]
    push_neg at hneg
    exact ⟨jsMod_nonneg hneg (by norm_num), jsMod_lt hneg (by norm_num)⟩

theorem turnRightAngle_mem (rot a : ℝ) (h0 : 0 ≤ a) (hr0 : 0 ≤ rot) :
    0 ≤ turnRightAngle rot a ∧ turnRightAngle rot a < 360 := by
  rw [turnRightAngle]
  have h2 : 0 ≤ a + rot := by linarith
  exact ⟨jsMod_nonneg h2 (by norm_num), jsMod_lt h2 (by norm_num)⟩

theorem movePlayer_angle (m : List (List ℕ)) (mov rot : ℝ) (k : Keys)
    (p : Player) :
    (movePlayer m mov rot k p).angle =
      if k.right = true then
        turnRightAngle rot
          (if k.left = true then turnLeftAngle rot p.angle else p.angle)
      else if k.left = true then turnLeftAngle rot p.angle else p.angle := by
  rcases k with ⟨u, d, l, r⟩
  cases u <;> cases d <;> cases l <;> cases r <;>
    simp [movePlayer, moveUp_angle, moveDown_angle]

/-- C8: a single `movePlayer` tick with any key combination keeps the player
angle inside `[0, 360)`, and repeatedly turning left from angle `0` never
yields a negative angle (it stays inside `[0, 360)`). -/
theorem c8_angle_normalization (m : List (List ℕ)) (mov rot : ℝ) (k : Keys)
    (p : Player) (h0 : 0 ≤ p.angle) (h1 : p.angle < 360)
    (hr0 : 0 < rot) (hr1 : rot < 360) :
    (0 ≤ (movePlayer m mov rot k p).angle ∧
        (movePlayer m mov rot k p).angle < 360) ∧
      ∀ n : ℕ, 0 ≤ iterLeftTurn rot n ∧ iterLeftTurn rot n < 360 := by
  have hL := turnLeftAngle_mem rot p.angle h0 h1 hr0 hr1
  constructor
  · rw [movePlayer_angle]
    by_cases hr : k.right = true
    · by_cases hl : k.left = true
      · rw [if_pos hr, if_pos hl]
        exact turnRightAngle_mem rot _ hL.1 hr0.le
      · rw [if_pos hr, if_neg hl]
        exact turnRightAngle_mem rot p.angle h0 hr0.le
    · by_cases hl : k.left = true
      · rw [if_neg hr, if_pos hl]
        exact hL
      · rw [if_neg hr, if_neg hl]
        exact ⟨h0, h1⟩
  · intro n
    induction n with
    | zero =>
      constructor <;> norm_num [iterLeftTurn]
    | succ n ih =>
      show 0 ≤ turnLeftAngle rot (iterLeftTurn rot n) ∧
        turnLeftAngle rot (iterLeftTurn rot n) < 360
      exact turnLeftAngle_mem rot _ ih.1 ih.2 hr0 hr1

/-- C8 witness: the engine's rotation speed `4.5` from heading `0` with the
turn-left key held. -/
theorem c8_angle_normalization_witness :
    0 ≤ (Player.mk (2 : ℝ) 2 0).angle ∧ (Player.mk (2 : ℝ) 2 0).angle < 360 ∧
      (0 : ℝ) < 4.5 ∧ (4.5 : ℝ) < 360 ∧
      ((0 ≤ (movePlayer dataMap movementSpeed 4.5
            (Keys.mk true false true false) (Player.mk 2 2 0)).angle ∧
          (movePlayer dataMap movementSpeed 4.5
            (Keys.mk true false true false) (Player.mk 2 2 0)).angle < 360) ∧
        ∀ n : ℕ, 0 ≤ iterLeftTurn 4.5 n ∧ iterLeftTurn 4.5 n < 360) := by
  have h0 : 0 ≤ (Player.mk (2 : ℝ) 2 0).angle := le_refl 0
  have h1 : (Player.mk (2 : ℝ) 2 0).angle < 360 := by
    show (0 : ℝ) < 360; norm_num
  have hr0 : (0 : ℝ) < 4.5 := by norm_num
  have hr1 : (4.5 : ℝ) < 360 := by norm_num
  exact ⟨h0, h1, hr0, hr1,
    c8_angle_normalization dataMap movementSpeed 4.5
      (Keys.mk true false true false) (Player.mk 2 2 0) h0 h1 hr0 hr1⟩

/-! ### The framebuffer, `drawPixel` and `drawFloor` (lines 164-176, 292-330) -/

/-- Source `Color` (lines 8-13): four 8-bit channels. -/
structure Color where
  r : ℕ
  g : ℕ
  b : ℕ
  a : ℕ

/-- Source `data.projection.buffer`: the byte quadruple starting at offset
`4 * (x + y * data.projection.width)` (line 171) is modelled as the `Color`
stored at key `x + y * projectionWidth`. -/
def Buffer := ℤ → Color

/-- Source `drawPixel` (lines 170-176). -/
noncomputable def drawPixel (buf : Buffer) (x y : ℝ) (c : Color) : Buffer :=
  fun k => if k = ⌊x⌋ + ⌊y⌋ * (projectionWidth : ℤ) then c else buf k

/-- An entry of `data.floorTextures`: dimensions plus the flattened color
array produced by the image loader. -/
structure FloorTexture where
  width : ℕ
  height : ℕ
  colors : List Color

/-- Source `data.floorTextures` (lines 32-39): a single `16 × 16` texture at index
`0`, with colors supplied by the loader. -/
def dataFloorTextures (d : List Color) : List FloorTexture := [⟨16, 16, d⟩]

/-- Source `tilex` of the floor loop (lines 299-305):
`distance * directionCos + data.player.x` after the perspective division. -/
noncomputable def floorTileX (px playerAngle rayAngle : ℝ) (y : ℕ) : ℝ :=
  floorCorrectedDistance y playerAngle rayAngle *
    Real.cos (degreeToRadians rayAngle) + px

/-- Source `tiley` of the floor loop (lines 299-306). -/
noncomputable def floorTileY (py playerAngle rayAngle : ℝ) (y : ℕ) : ℝ :=
  floorCorrectedDistance y playerAngle rayAngle *
    Real.sin (degreeToRadians rayAngle) + py

/-- Source `texture_x` (line 323): `(Math.floor(tilex * texture.width)) % texture.width`.
Both operands are integer-valued, so the JavaScript `%` is the truncated
integer remainder. -/
noncomputable def floorTexX (w : ℕ) (tilex : ℝ) : ℤ :=
  Int.tmod ⌊tilex * (w : ℝ)⌋ (w : ℤ)

/-- Source `texture_y` (line 324). -/
noncomputable def floorTexY (h : ℕ) (tiley : ℝ) : ℤ :=
  Int.tmod ⌊tiley * (h : ℝ)⌋ (h : ℤ)

/-- One iteration of the floor loop of `drawFloor` (lines 297-329): compute
the corrected distance and world sample point, skip the pixel when the
floored point leaves the map (lines 308-312) or its tile has no registered
floor texture (lines 316-320), otherwise sample the texture and draw.  An
out-of-range color index would read `undefined` in JavaScript; `getD`
supplies a default there (C10 shows the reachable indices are in range). -/
noncomputable def drawFloorStep (m : List (List ℕ)) (ftex : List FloorTexture)
    (px py playerAngle rayAngle x1 : ℝ) (y : ℕ) (buf : Buffer) : Buffer :=
  if ⌊floorTileY py playerAngle rayAngle y⌋ < 0 ∨
      (mapHeight m : ℤ) ≤ ⌊floorTileY py playerAngle rayAngle y⌋ ∨
      ⌊floorTileX px playerAngle rayAngle y⌋ < 0 ∨
      (mapWidth m : ℤ) ≤ ⌊floorTileX px playerAngle rayAngle y⌋ then buf
  else
    match ftex.get? (tileAt m ⌊floorTileY py playerAngle rayAngle y⌋
        ⌊floorTileX px playerAngle rayAngle y⌋) with
    | none => buf
    | some texture =>
      drawPixel buf x1 (y : ℝ)
        (texture.colors.getD
          (floorTexX texture.width (floorTileX px playerAngle rayAngle y) +
            floorTexY texture.height (floorTileY py playerAngle rayAngle y) *
              (texture.width : ℤ)).toNat ⟨0, 0, 0, 0⟩)

/-- The first floor row (line 293):
`start = data.projection.halfHeight + wallHeight + 1`. -/
def floorStart (wallHeight : ℕ) : ℕ := projectionHeight / 2 + wallHeight + 1

/-- Source `drawFloor` (lines 292-330): one `drawFloorStep` per row `y` from
`start` up to (excluding) `data.projection.height`. -/
noncomputable def drawFloor (m : List (List ℕ)) (ftex : List FloorTexture)
    (px py playerAngle : ℝ) (x1 : ℝ) (wallHeight : ℕ) (rayAngle : ℝ)
    (buf : Buffer) : Buffer :=
  (List.range' (floorStart wallHeight)
      (projectionHeight - floorStart wallHeight)).foldl
    (fun b y => drawFloorStep m ftex px py playerAngle rayAngle x1 y b) buf

theorem drawFloorStep_other_key (m : List (List ℕ)) (ftex : List FloorTexture)
    (px py pa ra x1 : ℝ) (y : ℕ) (buf : Buffer) (key : ℤ)
    (hkey : key ≠ ⌊x1⌋ + (y : ℤ) * (projectionWidth : ℤ)) :
    drawFloorStep m ftex px py pa ra x1 y buf key = buf key := by
  rw [drawFloorStep]
  split
  · rfl
  · cases hft : ftex.get? (tileAt m ⌊floorTileY py pa ra y⌋
        ⌊floorTileX px pa ra y⌋) with
    | none => simp only [hft]
    | some texture =>
      simp only [hft, drawPixel]
      rw [if_neg]
      rw [Int.floor_natCast]
      exact hkey

theorem drawFloorStep_skip (m : List (List ℕ)) (ftex : List FloorTexture)
    (px py pa ra x1 : ℝ) (y : ℕ) (buf : Buffer)
    (hskip : (⌊floorTileY py pa ra y⌋ < 0 ∨
        (mapHeight m : ℤ) ≤ ⌊floorTileY py pa ra y⌋ ∨
        ⌊floorTileX px pa ra y⌋ < 0 ∨
        (mapWidth m : ℤ) ≤ ⌊floorTileX px pa ra y⌋) ∨
      ftex.get? (tileAt m ⌊floorTileY py pa ra y⌋ ⌊floorTileX px pa ra y⌋) =
        none) :
    drawFloorStep m ftex px py pa ra x1 y buf = buf := by
  rcases hskip with hb | ht
  · rw [drawFloorStep, if_pos hb]
  · rw [drawFloorStep]
    split
    · rfl
    · rw [ht]

theorem drawFloor_fold_preserves (m : List (List ℕ)) (ftex : List FloorTexture)
    (px py pa ra x1 : ℝ) (yT : ℕ)
    (hskip : ∀ buf : Buffer, drawFloorStep m ftex px py pa ra x1 yT buf = buf) :
    ∀ (ys : List ℕ) (buf : Buffer),
      (ys.foldl (fun b y => drawFloorStep m ftex px py pa ra x1 y b) buf)
          (⌊x1⌋ + (yT : ℤ) * (projectionWidth : ℤ)) =
        buf (⌊x1⌋ + (yT : ℤ) * (projectionWidth : ℤ)) := by
  intro ys
  induction ys with
  | nil => intro buf; rfl
  | cons y ys ih =>
    intro buf
    rw [List.foldl_cons, ih]
    by_cases hy : y = yT
    · rw [hy, hskip]
    · apply drawFloorStep_other_key
      have hW : (projectionWidth : ℤ) = 160 := by
        norm_num [projectionWidth, screenWidth, screenScale]
      rw [hW]
      intro hcontra
      apply hy
      omega

/-- C7: out-of-bounds is recovered locally.  First: when the marching ray's
next sample point fails the bounds check, the wall finder stops there with
the synthetic wall id `1`.  Second: when a floor row's floored world point
lies outside the map, or its tile has no registered floor texture, the
whole `drawFloor` call leaves the framebuffer at that pixel unchanged. -/
theorem c7_out_of_bounds_recovery :
    (∀ (m : List (List ℕ)) (rc rs : ℝ) (fuel : ℕ) (r : Ray),
      rayOut m ⟨r.x + rc, r.y + rs⟩ →
        findWall m rc rs (fuel + 1) r = (1, ⟨r.x + rc, r.y + rs⟩)) ∧
      ∀ (m : List (List ℕ)) (ftex : List FloorTexture)
        (px py pa ra x1 : ℝ) (wallHeight y : ℕ) (buf : Buffer),
        ((⌊floorTileY py pa ra y⌋ < 0 ∨
            (mapHeight m : ℤ) ≤ ⌊floorTileY py pa ra y⌋ ∨
            ⌊floorTileX px pa ra y⌋ < 0 ∨
            (mapWidth m : ℤ) ≤ ⌊floorTileX px pa ra y⌋) ∨
          ftex.get? (tileAt m ⌊floorTileY py pa ra y⌋
            ⌊floorTileX px pa ra y⌋) = none) →
        drawFloor m ftex px py pa x1 wallHeight ra buf
            (⌊x1⌋ + (y : ℤ) * (projectionWidth : ℤ)) =
          buf (⌊x1⌋ + (y : ℤ) * (projectionWidth : ℤ)) := by
  constructor
  · intro m rc rs fuel r hout
    rw [findWall_succ, if_pos hout]
  · intro m ftex px py pa ra x1 wallHeight y buf hskip
    rw [drawFloor]
    apply drawFloor_fold_preserves
    intro b
    exact drawFloorStep_skip m ftex px py pa ra x1 y b hskip

/-- C7 witness: a ray already past the left edge stops with wall id `1`, and
a floor row sampled with an empty texture registry leaves the buffer
unchanged. -/
theorem c7_out_of_bounds_recovery_witness :
    rayOut dataMap ⟨(-2 : ℝ) + 0, (5 : ℝ) + 0⟩ ∧
      findWall dataMap 0 0 (0 + 1) ⟨(-2 : ℝ), (5 : ℝ)⟩ =
        (1, ⟨(-2 : ℝ) + 0, (5 : ℝ) + 0⟩) ∧
      ∀ buf : Buffer,
        drawFloor dataMap [] 2 2 0 3 0 0 buf
            (⌊(3 : ℝ)⌋ + ((100 : ℕ) : ℤ) * (projectionWidth : ℤ)) =
          buf (⌊(3 : ℝ)⌋ + ((100 : ℕ) : ℤ) * (projectionWidth : ℤ)) := by
  have hout : rayOut dataMap ⟨(-2 : ℝ) + 0, (5 : ℝ) + 0⟩ := by
    right; right; left
    show (-2 : ℝ) + 0 < 0
    norm_num
  refine ⟨hout, ?_, ?_⟩
  · exact (c7_out_of_bounds_recovery.1 dataMap 0 0 0 ⟨(-2 : ℝ), (5 : ℝ)⟩ hout)
  · intro buf
    exact c7_out_of_bounds_recovery.2 dataMap [] 2 2 0 0 3 0 100 buf
      (Or.inr rfl)

theorem tmod_bounds {a : ℤ} {w : ℕ} (ha : 0 ≤ a) (hw : 0 < w) :
    0 ≤ Int.tmod a (w : ℤ) ∧ Int.tmod a (w : ℤ) < (w : ℤ) := by
  have hwz : (w : ℤ) ≠ 0 := by exact_mod_cast hw.ne'
  rw [Int.tmod_eq_emod ha (by exact_mod_cast hw.le)]
  exact ⟨Int.emod_nonneg a hwz, Int.emod_lt_of_pos a (by exact_mod_cast hw)⟩

/-- C10: for every floor pixel that passes the map-bounds check and whose
tile has a registered floor texture, the computed texture coordinates lie
inside `[0, width) × [0, height)`, so the sampling index
`texture_x + texture_y * width` is a valid index into the texture's color
array. -/
theorem c10_floor_texture_sampling_safe (m : List (List ℕ)) (d : List Color)
    (px py pa ra : ℝ) (y : ℕ) (t : FloorTexture)
    (hb : ¬(⌊floorTileY py pa ra y⌋ < 0 ∨
        (mapHeight m : ℤ) ≤ ⌊floorTileY py pa ra y⌋ ∨
        ⌊floorTileX px pa ra y⌋ < 0 ∨
        (mapWidth m : ℤ) ≤ ⌊floorTileX px pa ra y⌋))
    (hft : (dataFloorTextures d).get? (tileAt m ⌊floorTileY py pa ra y⌋
        ⌊floorTileX px pa ra y⌋) = some t)
    (hd : d.length = 256) :
    0 ≤ floorTexX t.width (floorTileX px pa ra y) ∧
      floorTexX t.width (floorTileX px pa ra y) < (t.width : ℤ) ∧
      0 ≤ floorTexY t.height (floorTileY py pa ra y) ∧
      floorTexY t.height (floorTileY py pa ra y) < (t.height : ℤ) ∧
      (floorTexX t.width (floorTileX px pa ra y) +
          floorTexY t.height (floorTileY py pa ra y) * (t.width : ℤ)).toNat <
        t.colors.length := by
  push_neg at hb
  obtain ⟨hy0, _, hx0, _⟩ := hb
  have ht : t = ⟨16, 16, d⟩ := by
    rcases hidx : tileAt m ⌊floorTileY py pa ra y⌋ ⌊floorTileX px pa ra y⌋
      with _ | n
    · rw [hidx] at hft
      simp only [dataFloorTextures, List.get?] at hft
      exact (Option.some_injective _ hft).symm
    · rw [hidx] at hft
      simp only [dataFloorTextures, List.get?] at hft
      cases hft
  subst ht
  have htx : (0 : ℝ) ≤ floorTileX px pa ra y := by
    have h1 : ((0 : ℤ) : ℝ) ≤ (⌊floorTileX px pa ra y⌋ : ℝ) := by
      exact_mod_cast hx0
    have h2 := Int.floor_le (floorTileX px pa ra y)
    simpa using le_trans h1 h2
  have hty : (0 : ℝ) ≤ floorTileY py pa ra y := by
    have h1 : ((0 : ℤ) : ℝ) ≤ (⌊floorTileY py pa ra y⌋ : ℝ) := by
      exact_mod_cast hy0
    have h2 := Int.floor_le (floorTileY py pa ra y)
    simpa using le_trans h1 h2
  have hX : 0 ≤ ⌊floorTileX px pa ra y * ((16 : ℕ) : ℝ)⌋ :=
    Int.floor_nonneg.mpr (mul_nonneg htx (by norm_num))
  have hY : 0 ≤ ⌊floorTileY py pa ra y * ((16 : ℕ) : ℝ)⌋ :=
    Int.floor_nonneg.mpr (mul_nonneg hty (by norm_num))
  have hbx := tmod_bounds hX (show 0 < 16 by norm_num)
  have hby := tmod_bounds hY (show 0 < 16 by norm_num)
  have hwidth : (FloorTexture.mk 16 16 d).width = 16 := rfl
  have hheight : (FloorTexture.mk 16 16 d).height = 16 := rfl
  have hcolors : (FloorTexture.mk 16 16 d).colors = d := rfl
  rw [hwidth, hheight, hcolors, floorTexX, floorTexY, hd]
  refine ⟨hbx.1, hbx.2, hby.1, hby.2, ?_⟩
  omega

/-- C10 witness: the engine's map, player at `(2, 2)` looking along angle
`0`, floor row `90`, with a full 256-color floor texture. -/
theorem c10_floor_texture_sampling_safe_witness :
    ¬(⌊floorTileY 2 0 0 90⌋ < 0 ∨
        (mapHeight dataMap : ℤ) ≤ ⌊floorTileY 2 0 0 90⌋ ∨
        ⌊floorTileX 2 0 0 90⌋ < 0 ∨
        (mapWidth dataMap : ℤ) ≤ ⌊floorTileX 2 0 0 90⌋) ∧
      (dataFloorTextures (List.replicate 256 ⟨0, 0, 0, 255⟩)).get?
          (tileAt dataMap ⌊floorTileY 2 0 0 90⌋ ⌊floorTileX 2 0 0 90⌋) =
        some ⟨16, 16, List.replicate 256 ⟨0, 0, 0, 255⟩⟩ ∧
      (List.replicate 256 (⟨0, 0, 0, 255⟩ : Color)).length = 256 ∧
      (0 ≤ floorTexX (FloorTexture.mk 16 16
          (List.replicate 256 ⟨0, 0, 0, 255⟩)).width (floorTileX 2 0 0 90) ∧
        floorTexX (FloorTexture.mk 16 16
            (List.replicate 256 ⟨0, 0, 0, 255⟩)).width (floorTileX 2 0 0 90) <
          ((FloorTexture.mk 16 16
            (List.replicate 256 ⟨0, 0, 0, 255⟩)).width : ℤ) ∧
        0 ≤ floorTexY (FloorTexture.mk 16 16
          (List.replicate 256 ⟨0, 0, 0, 255⟩)).height (floorTileY 2 0 0 90) ∧
        floorTexY (FloorTexture.mk 16 16
            (List.replicate 256 ⟨0, 0, 0, 255⟩)).height (floorTileY 2 0 0 90) <
          ((FloorTexture.mk 16 16
            (List.replicate 256 ⟨0, 0, 0, 255⟩)).height : ℤ) ∧
        (floorTexX (FloorTexture.mk 16 16
            (List.replicate 256 ⟨0, 0, 0, 255⟩)).width (floorTileX 2 0 0 90) +
            floorTexY (FloorTexture.mk 16 16
              (List.replicate 256 ⟨0, 0, 0, 255⟩)).height
              (floorTileY 2 0 0 90) *
              ((FloorTexture.mk 16 16
                (List.replicate 256 ⟨0, 0, 0, 255⟩)).width : ℤ)).toNat <
          (FloorTexture.mk 16 16
            (List.replicate 256 ⟨0, 0, 0, 255⟩)).colors.length) := by
  have h0 : degreeToRadians 0 = 0 := by rw [degreeToRadians]; ring
  have hfc : floorCorrectedDistance ((90 : ℕ) : ℝ) 0 0 = 2 := by
    rw [floorCorrectedDistance, floorRawDistance, h0]
    norm_num [projectionHeight, screenHeight, screenScale]
  have htx : floorTileX 2 0 0 90 = 4 := by
    rw [floorTileX, hfc, h0, Real.cos_zero]
    norm_num
  have hty : floorTileY 2 0 0 90 = 2 := by
    rw [floorTileY, hfc, h0, Real.sin_zero]
    norm_num
  have htxf : ⌊floorTileX 2 0 0 90⌋ = 4 := by rw [htx]; norm_num
  have htyf : ⌊floorTileY 2 0 0 90⌋ = 2 := by rw [hty]; norm_num
  have hb : ¬(⌊floorTileY 2 0 0 90⌋ < 0 ∨
      (mapHeight dataMap : ℤ) ≤ ⌊floorTileY 2 0 0 90⌋ ∨
      ⌊floorTileX 2 0 0 90⌋ < 0 ∨
      (mapWidth dataMap : ℤ) ≤ ⌊floorTileX 2 0 0 90⌋) := by
    rw [htxf, htyf]
    have hh : mapHeight dataMap = 10 := rfl
    have hw : mapWidth dataMap = 10 := rfl
    rw [hh, hw]
    push_neg
    norm_num
  have hft : (dataFloorTextures (List.replicate 256 ⟨0, 0, 0, 255⟩)).get?
      (tileAt dataMap ⌊floorTileY 2 0 0 90⌋ ⌊floorTileX 2 0 0 90⌋) =
      some ⟨16, 16, List.replicate 256 ⟨0, 0, 0, 255⟩⟩ := by
    rw [htxf, htyf]
    rfl
  have hd : (List.replicate 256 (⟨0, 0, 0, 255⟩ : Color)).length = 256 := by
    rw [List.length_replicate]
  exact ⟨hb, hft, hd,
    c10_floor_texture_sampling_safe dataMap
      (List.replicate 256 ⟨0, 0, 0, 255⟩) 2 2 0 0 90
      ⟨16, 16, List.replicate 256 ⟨0, 0, 0, 255⟩⟩ hb hft hd⟩

/-- The floor of a real divided by a positive natural is the floor-division
of its floor. -/
theorem floor_div_nat_cast (s : ℝ) (w : ℕ) (hw : 0 < w) :
    ⌊s / (w : ℝ)⌋ = ⌊s⌋ / (w : ℤ) := by
  have hw0 : (0 : ℝ) < (w : ℝ) := by exact_mod_cast hw
  have hwz : (w : ℤ) ≠ 0 := by exact_mod_cast hw.ne'
  have hdm := Int.ediv_add_emod ⌊s⌋ (w : ℤ)
  have hr0 : 0 ≤ ⌊s⌋ % (w : ℤ) := Int.emod_nonneg _ hwz
  have hr1 : ⌊s⌋ % (w : ℤ) < (w : ℤ) := Int.emod_lt_of_pos _ (by exact_mod_cast hw)
  rw [Int.floor_eq_iff]
  constructor
  · rw [le_div_iff hw0]
    have h1 : (w : ℤ) * (⌊s⌋ / (w : ℤ)) ≤ ⌊s⌋ := by linarith
    have h2 : ((⌊s⌋ / (w : ℤ) : ℤ) : ℝ) * (w : ℝ) ≤ ((⌊s⌋ : ℤ) : ℝ) := by
      exact_mod_cast (by linarith : (⌊s⌋ / (w : ℤ)) * (w : ℤ) ≤ ⌊s⌋)
    exact le_trans h2 (Int.floor_le s)
  · rw [div_lt_iff hw0]
    have h1 : ⌊s⌋ + 1 ≤ ((⌊s⌋ / (w : ℤ)) + 1) * (w : ℤ) := by
      have : ((⌊s⌋ / (w : ℤ)) + 1) * (w : ℤ) = (w : ℤ) * (⌊s⌋ / (w : ℤ)) + (w : ℤ) := by
        ring
      rw [this]
      linarith
    have h2 : s < ((⌊s⌋ : ℤ) : ℝ) + 1 := Int.lt_floor_add_one s
    have h3 : ((⌊s⌋ : ℤ) : ℝ) + 1 ≤ (((⌊s⌋ / (w : ℤ)) + 1 : ℤ) : ℝ) * (w : ℝ) := by
      exact_mod_cast h1
    calc s < ((⌊s⌋ : ℤ) : ℝ) + 1 := h2
      _ ≤ (((⌊s⌋ / (w : ℤ)) + 1 : ℤ) : ℝ) * (w : ℝ) := h3
      _ = ((⌊s⌋ / (w : ℤ) : ℤ) : ℝ) * (w : ℝ) + (w : ℝ) := by push_cast; ring
      _ = ((⌊s⌋ / (w : ℤ) : ℤ) : ℝ) * (w : ℝ) + 1 * (w : ℝ) := by ring
      _ = (((⌊s⌋ / (w : ℤ) : ℤ) : ℝ) + 1) * (w : ℝ) := by ring

/-- C9: for a wall hit with non-negative coordinate sum (every hit inside
the map), the texture column computed on line 234 equals
`floor(textureWidth * (hitX + hitY)) mod textureWidth`. -/
theorem c9_wall_texture_column (w : ℕ) (hx hy : ℝ) (hw : 0 < w)
    (hnn : 0 ≤ hx + hy) :
    texturePositionX w hx hy = ⌊(w : ℝ) * (hx + hy)⌋ % (w : ℤ) := by
  have hs0 : (0 : ℝ) ≤ (w : ℝ) * (hx + hy) :=
    mul_nonneg (Nat.cast_nonneg w) hnn
  have hw0 : (0 : ℝ) < (w : ℝ) := by exact_mod_cast hw
  rw [texturePositionX, jsMod, jsTrunc_of_nonneg (div_nonneg hs0 hw0.le),
    floor_div_nat_cast _ w hw]
  rw [show (w : ℝ) * ((⌊(w : ℝ) * (hx + hy)⌋ / (w : ℤ) : ℤ) : ℝ) =
      (((w : ℤ) * (⌊(w : ℝ) * (hx + hy)⌋ / (w : ℤ)) : ℤ) : ℝ) by push_cast; ring]
  rw [Int.floor_sub_int, Int.emod_def]

/-- C9 witness: an `8`-pixel texture at hit point `(1.5, 2.25)`. -/
theorem c9_wall_texture_column_witness :
    0 < 8 ∧ (0 : ℝ) ≤ 1.5 + 2.25 ∧
      texturePositionX 8 1.5 2.25 = ⌊((8 : ℕ) : ℝ) * (1.5 + 2.25)⌋ % ((8 : ℕ) : ℤ) := by
  refine ⟨by norm_num, by norm_num, ?_⟩
  exact c9_wall_texture_column 8 1.5 2.25 (by norm_num) (by norm_num)
